import Mathlib

/-!
Formal model of the affine transform estimator of speedy-vision
(src/src/core/wasm/affine32.h): the two entry points
`Mat32_affine_dlt3` (exact 3-point solver) and `Mat32_affine_dlt`
(general N-point least-squares solver, via the Direct Linear Transform).

The repository ships only the header with the two declarations; the
estimation routines themselves are modelled here from the specification.
Single-precision floating-point scalars are modelled as exact rationals.
-/

namespace Affine32

attribute [local semireducible] Rat.sub Rat.add Rat.mul Rat.inv

/-- Modelled from the spec: the error kinds of the estimator
(`InvalidInput` for count-validation failures, `DegenerateInput` for a
singular linear system); the implementation file of `Mat32_affine_dlt3`
and `Mat32_affine_dlt` is not in the repository snapshot, only its header. -/
inductive AffineError where
  | InvalidInput
  | DegenerateInput
deriving DecidableEq, Repr

/-- A 2D point (x, y); a PointSet is an ordered list of these, the model of
an N×2 `Mat32` of point coordinates. -/
abbrev Point : Type := ℚ × ℚ

/-- The 3×3 AffineMatrix `[[a,b,tx],[c,d,ty],[0,0,1]]`, nine entries row-major. -/
structure AffineMatrix where
  m00 : ℚ
  m01 : ℚ
  m02 : ℚ
  m10 : ℚ
  m11 : ℚ
  m12 : ℚ
  m20 : ℚ
  m21 : ℚ
  m22 : ℚ
deriving DecidableEq, Repr

instance {ε α : Type} [DecidableEq ε] [DecidableEq α] : DecidableEq (Except ε α) :=
  fun x y =>
    match x, y with
    | .ok a, .ok b => decidable_of_iff (a = b) (by simp)
    | .error a, .error b => decidable_of_iff (a = b) (by simp)
    | .ok _, .error _ => isFalse (by simp)
    | .error _, .ok _ => isFalse (by simp)

/-- Apply an affine matrix (in homogeneous form) to a 2D point. -/
def applyAffine (M : AffineMatrix) (p : Point) : Point :=
  (M.m00 * p.1 + M.m01 * p.2 + M.m02, M.m10 * p.1 + M.m11 * p.2 + M.m12)

/-- Determinant of a 3×3 matrix given row-major. -/
def det3 (m11 m12 m13 m21 m22 m23 m31 m32 m33 : ℚ) : ℚ :=
  m11 * (m22 * m33 - m23 * m32) - m12 * (m21 * m33 - m23 * m31)
    + m13 * (m21 * m32 - m22 * m31)

/-- Modelled from the spec: the matrix primitive's direct 3×3 linear-system
solve (Cramer form), with the singularity check on the determinant that the
spec requires; returns `none` on a singular system. -/
def solve3 (m11 m12 m13 m21 m22 m23 m31 m32 m33 r1 r2 r3 : ℚ) :
    Option (ℚ × ℚ × ℚ) :=
  if det3 m11 m12 m13 m21 m22 m23 m31 m32 m33 = 0 then none
  else some
    (det3 r1 m12 m13 r2 m22 m23 r3 m32 m33
        / det3 m11 m12 m13 m21 m22 m23 m31 m32 m33,
     det3 m11 r1 m13 m21 r2 m23 m31 r3 m33
        / det3 m11 m12 m13 m21 m22 m23 m31 m32 m33,
     det3 m11 m12 r1 m21 m22 r2 m31 m32 r3
        / det3 m11 m12 m13 m21 m22 m23 m31 m32 m33)

/-- Three points are collinear when the cross product of the two edge
vectors vanishes. -/
def collinear3 (p q r : Point) : Prop :=
  (q.1 - p.1) * (r.2 - p.2) - (r.1 - p.1) * (q.2 - p.2) = 0

instance (p q r : Point) : Decidable (collinear3 p q r) := by
  unfold collinear3; infer_instance

/-- Source x-coordinate of a matched pair. -/
def px (q : Point × Point) : ℚ := q.1.1

/-- Source y-coordinate of a matched pair. -/
def py (q : Point × Point) : ℚ := q.1.2

/-- Destination x-coordinate of a matched pair. -/
def pu (q : Point × Point) : ℚ := q.2.1

/-- Destination y-coordinate of a matched pair. -/
def pv (q : Point × Point) : ℚ := q.2.2

/-- Gram entry Σ x·x of the normal equations. -/
def sxx (l : List (Point × Point)) : ℚ := (l.map fun q => px q * px q).sum

/-- Gram entry Σ x·y of the normal equations. -/
def sxy (l : List (Point × Point)) : ℚ := (l.map fun q => px q * py q).sum

/-- Gram entry Σ x of the normal equations. -/
def sx (l : List (Point × Point)) : ℚ := (l.map fun q => px q).sum

/-- Gram entry Σ y·y of the normal equations. -/
def syy (l : List (Point × Point)) : ℚ := (l.map fun q => py q * py q).sum

/-- Gram entry Σ y of the normal equations. -/
def sy (l : List (Point × Point)) : ℚ := (l.map fun q => py q).sum

/-- Gram entry Σ 1 (the number of pairs) of the normal equations. -/
def sn (l : List (Point × Point)) : ℚ := (l.map fun _ => (1 : ℚ)).sum

/-- Right-hand side Σ x·u of the normal equations, x-block. -/
def bxu (l : List (Point × Point)) : ℚ := (l.map fun q => px q * pu q).sum

/-- Right-hand side Σ y·u of the normal equations, x-block. -/
def byu (l : List (Point × Point)) : ℚ := (l.map fun q => py q * pu q).sum

/-- Right-hand side Σ u of the normal equations, x-block. -/
def bu (l : List (Point × Point)) : ℚ := (l.map fun q => pu q).sum

/-- Right-hand side Σ x·v of the normal equations, y-block. -/
def bxv (l : List (Point × Point)) : ℚ := (l.map fun q => px q * pv q).sum

/-- Right-hand side Σ y·v of the normal equations, y-block. -/
def byv (l : List (Point × Point)) : ℚ := (l.map fun q => py q * pv q).sum

/-- Right-hand side Σ v of the normal equations, y-block. -/
def bv (l : List (Point × Point)) : ℚ := (l.map fun q => pv q).sum

/-- Determinant of the 3×3 Gram block of the normal matrix DᵗD; the normal
matrix is block-diagonal with two copies of this block, so it is singular
exactly when this determinant vanishes. -/
def normalDet (l : List (Point × Point)) : ℚ :=
  det3 (sxx l) (sxy l) (sx l) (sxy l) (syy l) (sy l) (sx l) (sy l) (sn l)

/-- Modelled from the spec: core of the exact 3-point solver. Each pair
contributes two equations in the unknowns [a,b,tx,c,d,ty]; the 6×6 system
decouples into two 3×3 systems sharing the coefficient matrix built from
the three source points, solved directly. -/
def dlt3Core (p1 p2 p3 q1 q2 q3 : Point) : Option ((ℚ × ℚ × ℚ) × (ℚ × ℚ × ℚ)) :=
  match solve3 p1.1 p1.2 1 p2.1 p2.2 1 p3.1 p3.2 1 q1.1 q2.1 q3.1,
        solve3 p1.1 p1.2 1 p2.1 p2.2 1 p3.1 p3.2 1 q1.2 q2.2 q3.2 with
  | some abt, some cdt => some (abt, cdt)
  | _, _ => none

/-- Modelled from the spec: core of the N-point least-squares solver. The
2N×6 design matrix yields normal equations `(DᵗD) h = Dᵗ t`; `DᵗD` is
block-diagonal with two copies of the 3×3 Gram block, so the solve is two
3×3 solves with that shared block. -/
def dltCore (l : List (Point × Point)) : Option ((ℚ × ℚ × ℚ) × (ℚ × ℚ × ℚ)) :=
  match solve3 (sxx l) (sxy l) (sx l) (sxy l) (syy l) (sy l)
          (sx l) (sy l) (sn l) (bxu l) (byu l) (bu l),
        solve3 (sxx l) (sxy l) (sx l) (sxy l) (syy l) (sy l)
          (sx l) (sy l) (sn l) (bxv l) (byv l) (bv l) with
  | some abt, some cdt => some (abt, cdt)
  | _, _ => none

/-- Modelled from the spec: the exact 3-point entry point. Validates the
point counts first (equal counts, exactly 3), then solves the 6×6 system;
a singular system (collinear sources) fails with `DegenerateInput`. The
returned matrix is the content written into the caller's result matrix. -/
def affine_dlt3 (result : AffineMatrix) (src dest : List Point) :
    Except AffineError AffineMatrix :=
  if src.length = dest.length ∧ src.length = 3 then
    match src, dest with
    | [p1, p2, p3], [q1, q2, q3] =>
      match dlt3Core p1 p2 p3 q1 q2 q3 with
      | some ((a, b, tx), (c, d, ty)) => .ok ⟨a, b, tx, c, d, ty, 0, 0, 1⟩
      | none => .error .DegenerateInput
    | _, _ => .error .InvalidInput
  else .error .InvalidInput

/-- Modelled from the spec: the general N-point entry point. Validates the
point counts first (equal counts, at least 3), then solves the normal
equations of the 2N×6 least-squares system; a singular normal matrix
(degenerate configuration) fails with `DegenerateInput`. The returned
matrix is the content written into the caller's result matrix. -/
def affine_dlt (result : AffineMatrix) (src dest : List Point) :
    Except AffineError AffineMatrix :=
  if src.length = dest.length ∧ 3 ≤ src.length then
    match dltCore (src.zip dest) with
    | some ((a, b, tx), (c, d, ty)) => .ok ⟨a, b, tx, c, d, ty, 0, 0, 1⟩
    | none => .error .DegenerateInput
  else .error .InvalidInput

/-- The three caller-owned matrices a call touches. -/
structure CallState where
  result : AffineMatrix
  src : List Point
  dest : List Point
deriving DecidableEq, Repr

/-- Modelled from the spec: the external effect of one `Mat32_affine_dlt3`
call — the outcome, paired with the post-call contents of the three
caller-provided matrices; the result matrix is overwritten only on
success, and the inputs are never mutated. -/
def affine_dlt3_call (st : CallState) :
    Except AffineError AffineMatrix × CallState :=
  match affine_dlt3 st.result st.src st.dest with
  | .ok M => (.ok M, ⟨M, st.src, st.dest⟩)
  | .error e => (.error e, st)

/-- Modelled from the spec: the external effect of one `Mat32_affine_dlt`
call, as for `affine_dlt3_call`. -/
def affine_dlt_call (st : CallState) :
    Except AffineError AffineMatrix × CallState :=
  match affine_dlt st.result st.src st.dest with
  | .ok M => (.ok M, ⟨M, st.src, st.dest⟩)
  | .error e => (.error e, st)

/-- Modelled from the spec and the header: at the declared C interface the
3-point entry point returns a single `const Mat32` pointer — the result
handle on success, NULL (here `none`) on failure — with no separate
error-code channel. -/
def Mat32_affine_dlt3 (result : AffineMatrix) (src dest : List Point) :
    Option AffineMatrix :=
  (affine_dlt3 result src dest).toOption

/-- Modelled from the spec and the header: the single-pointer C return of
the N-point entry point, as for `Mat32_affine_dlt3`. -/
def Mat32_affine_dlt (result : AffineMatrix) (src dest : List Point) :
    Option AffineMatrix :=
  (affine_dlt result src dest).toOption

/-- Sum of squared residuals of an affine matrix over matched point pairs. -/
def rss (src dest : List Point) (A : AffineMatrix) : ℚ :=
  ((src.zip dest).map fun q =>
    (pu q - (A.m00 * px q + A.m01 * py q + A.m02)) ^ 2
      + (pv q - (A.m10 * px q + A.m11 * py q + A.m12)) ^ 2).sum

/-- A zero scratch matrix used as the caller's pre-allocated result. -/
def zeroMat : AffineMatrix := ⟨0, 0, 0, 0, 0, 0, 0, 0, 0⟩

/-- Cramer's rule: when the determinant is nonzero, `solve3` returns the
quotient-of-determinants solution. -/
theorem solve3_of_det (m11 m12 m13 m21 m22 m23 m31 m32 m33 r1 r2 r3 : ℚ)
    (hΔ : det3 m11 m12 m13 m21 m22 m23 m31 m32 m33 ≠ 0) :
    solve3 m11 m12 m13 m21 m22 m23 m31 m32 m33 r1 r2 r3 = some
      (det3 r1 m12 m13 r2 m22 m23 r3 m32 m33
          / det3 m11 m12 m13 m21 m22 m23 m31 m32 m33,
       det3 m11 r1 m13 m21 r2 m23 m31 r3 m33
          / det3 m11 m12 m13 m21 m22 m23 m31 m32 m33,
       det3 m11 m12 r1 m21 m22 r2 m31 m32 r3
          / det3 m11 m12 m13 m21 m22 m23 m31 m32 m33) := by
  unfold solve3
  rw [if_neg hΔ]

/-- On a singular system `solve3` fails. -/
theorem solve3_none (m11 m12 m13 m21 m22 m23 m31 m32 m33 r1 r2 r3 : ℚ)
    (hΔ : det3 m11 m12 m13 m21 m22 m23 m31 m32 m33 = 0) :
    solve3 m11 m12 m13 m21 m22 m23 m31 m32 m33 r1 r2 r3 = none := by
  unfold solve3
  rw [if_pos hΔ]

/-- A successful `solve3` satisfies all three equations of the system. -/
theorem solve3_spec (m11 m12 m13 m21 m22 m23 m31 m32 m33 r1 r2 r3 a b c : ℚ)
    (h : solve3 m11 m12 m13 m21 m22 m23 m31 m32 m33 r1 r2 r3 = some (a, b, c)) :
    m11 * a + m12 * b + m13 * c = r1 ∧ m21 * a + m22 * b + m23 * c = r2 ∧
      m31 * a + m32 * b + m33 * c = r3 := by
  unfold solve3 at h
  split at h
  · exact absurd h (by simp)
  · rename_i hΔ
    rw [Option.some_inj, Prod.mk.injEq, Prod.mk.injEq] at h
    obtain ⟨ha, hb, hc⟩ := h
    subst ha hb hc
    refine ⟨?_, ?_, ?_⟩ <;>
      · field_simp
        unfold det3
        ring

/-- A nonsingular 3×3 system has at most one solution. -/
theorem lin3_unique (m11 m12 m13 m21 m22 m23 m31 m32 m33 r1 r2 r3 : ℚ)
    (hΔ : det3 m11 m12 m13 m21 m22 m23 m31 m32 m33 ≠ 0)
    (a b c a' b' c' : ℚ)
    (h1 : m11 * a + m12 * b + m13 * c = r1)
    (h2 : m21 * a + m22 * b + m23 * c = r2)
    (h3 : m31 * a + m32 * b + m33 * c = r3)
    (h1' : m11 * a' + m12 * b' + m13 * c' = r1)
    (h2' : m21 * a' + m22 * b' + m23 * c' = r2)
    (h3' : m31 * a' + m32 * b' + m33 * c' = r3) :
    a = a' ∧ b = b' ∧ c = c' := by
  have hΔ' : det3 m11 m12 m13 m21 m22 m23 m31 m32 m33 ≠ 0 := hΔ
  refine ⟨?_, ?_, ?_⟩
  · have key : det3 m11 m12 m13 m21 m22 m23 m31 m32 m33 * (a - a') = 0 := by
      unfold det3
      linear_combination (m22 * m33 - m23 * m32) * (h1 - h1')
        - (m12 * m33 - m13 * m32) * (h2 - h2')
        + (m12 * m23 - m13 * m22) * (h3 - h3')
    have := (mul_eq_zero.mp key).resolve_left hΔ'
    linarith
  · have key : det3 m11 m12 m13 m21 m22 m23 m31 m32 m33 * (b - b') = 0 := by
      unfold det3
      linear_combination (-(m21 * m33 - m23 * m31)) * (h1 - h1')
        + (m11 * m33 - m13 * m31) * (h2 - h2')
        - (m11 * m23 - m13 * m21) * (h3 - h3')
    have := (mul_eq_zero.mp key).resolve_left hΔ'
    linarith
  · have key : det3 m11 m12 m13 m21 m22 m23 m31 m32 m33 * (c - c') = 0 := by
      unfold det3
      linear_combination (m21 * m32 - m22 * m31) * (h1 - h1')
        - (m11 * m32 - m12 * m31) * (h2 - h2')
        + (m11 * m22 - m12 * m21) * (h3 - h3')
    have := (mul_eq_zero.mp key).resolve_left hΔ'
    linarith

/-- On three-element point lists `affine_dlt3` passes validation and runs the
3-point core. -/
theorem affine_dlt3_three (r : AffineMatrix) (p1 p2 p3 q1 q2 q3 : Point) :
    affine_dlt3 r [p1, p2, p3] [q1, q2, q3] =
      match dlt3Core p1 p2 p3 q1 q2 q3 with
      | some ((a, b, tx), (c, d, ty)) => .ok ⟨a, b, tx, c, d, ty, 0, 0, 1⟩
      | none => .error .DegenerateInput := rfl

/-- On valid point counts `affine_dlt` runs the least-squares core on the
zipped pairs. -/
theorem affine_dlt_valid (r : AffineMatrix) (src dest : List Point)
    (h : src.length = dest.length ∧ 3 ≤ src.length) :
    affine_dlt r src dest =
      match dltCore (src.zip dest) with
      | some ((a, b, tx), (c, d, ty)) => .ok ⟨a, b, tx, c, d, ty, 0, 0, 1⟩
      | none => .error .DegenerateInput := by
  unfold affine_dlt
  rw [if_pos h]

/-- A singular Gram block makes the least-squares core fail. -/
theorem dltCore_none (l : List (Point × Point)) (h : normalDet l = 0) :
    dltCore l = none := by
  unfold normalDet at h
  unfold dltCore
  rw [solve3_none _ _ _ _ _ _ _ _ _ _ _ _ h, solve3_none _ _ _ _ _ _ _ _ _ _ _ _ h]

/-- C4: collinear source points make `affine_dlt3` fail with
`DegenerateInput`, and a point configuration whose normal system is
singular makes `affine_dlt` fail with `DegenerateInput`; neither falls
back to returning a matrix. -/
theorem degenerate_input_fails :
    (∀ (r : AffineMatrix) (p1 p2 p3 q1 q2 q3 : Point), collinear3 p1 p2 p3 →
      affine_dlt3 r [p1, p2, p3] [q1, q2, q3] = .error .DegenerateInput) ∧
    (∀ (r : AffineMatrix) (src dest : List Point), src.length = dest.length →
      3 ≤ src.length → normalDet (src.zip dest) = 0 →
      affine_dlt r src dest = .error .DegenerateInput) := by
  constructor
  · intro r p1 p2 p3 q1 q2 q3 h
    have hd : det3 p1.1 p1.2 1 p2.1 p2.2 1 p3.1 p3.2 1 = 0 := by
      unfold collinear3 at h
      unfold det3
      linear_combination h
    rw [affine_dlt3_three]
    unfold dlt3Core
    rw [solve3_none _ _ _ _ _ _ _ _ _ _ _ _ hd, solve3_none _ _ _ _ _ _ _ _ _ _ _ _ hd]
  · intro r src dest h1 h2 h3
    rw [affine_dlt_valid r src dest ⟨h1, h2⟩, dltCore_none _ h3]

/-- C4 witness: a concrete collinear triple is rejected as degenerate by
both entry points. -/
theorem degenerate_input_fails_witness :
    collinear3 ((0 : ℚ), (0 : ℚ)) (1, 1) (2, 2) ∧
      affine_dlt3 zeroMat [(0, 0), (1, 1), (2, 2)] [(0, 0), (1, 0), (0, 1)] =
        .error .DegenerateInput ∧
      affine_dlt zeroMat [(0, 0), (1, 1), (2, 2)] [(0, 0), (1, 0), (0, 1)] =
        .error .DegenerateInput :=
  ⟨by decide,
   degenerate_input_fails.1 zeroMat (0, 0) (1, 1) (2, 2) (0, 0) (1, 0) (0, 1)
     (by decide),
   degenerate_input_fails.2 zeroMat [(0, 0), (1, 1), (2, 2)]
     [(0, 0), (1, 0), (0, 1)] (by decide) (by decide) (by decide)⟩

/-- C5: count validation — when the source and destination counts differ,
or are below 3, or (3-point path) are not exactly 3, the call fails with
`InvalidInput`. -/
theorem invalid_input_rejected :
    (∀ (r : AffineMatrix) (src dest : List Point),
      ¬(src.length = dest.length ∧ src.length = 3) →
      affine_dlt3 r src dest = .error .InvalidInput) ∧
    (∀ (r : AffineMatrix) (src dest : List Point),
      ¬(src.length = dest.length ∧ 3 ≤ src.length) →
      affine_dlt r src dest = .error .InvalidInput) := by
  constructor
  · intro r src dest h
    unfold affine_dlt3
    rw [if_neg h]
  · intro r src dest h
    unfold affine_dlt
    rw [if_neg h]

/-- C5 witness: mismatched counts (4 source points versus 3 destination
points) are rejected as invalid by both entry points. -/
theorem invalid_input_rejected_witness :
    ¬(([((0 : ℚ), (0 : ℚ)), (1, 0), (0, 1), (1, 1)] : List Point).length =
        ([((0 : ℚ), (0 : ℚ)), (1, 0), (0, 1)] : List Point).length ∧
      ([((0 : ℚ), (0 : ℚ)), (1, 0), (0, 1), (1, 1)] : List Point).length = 3) ∧
      affine_dlt3 zeroMat [(0, 0), (1, 0), (0, 1), (1, 1)] [(0, 0), (1, 0), (0, 1)] =
        .error .InvalidInput ∧
      affine_dlt zeroMat [(0, 0), (1, 0), (0, 1), (1, 1)] [(0, 0), (1, 0), (0, 1)] =
        .error .InvalidInput :=
  ⟨by decide,
   invalid_input_rejected.1 zeroMat [(0, 0), (1, 0), (0, 1), (1, 1)]
     [(0, 0), (1, 0), (0, 1)] (by decide),
   invalid_input_rejected.2 zeroMat [(0, 0), (1, 0), (0, 1), (1, 1)]
     [(0, 0), (1, 0), (0, 1)] (by decide)⟩

/-- C6: the caller's result matrix is left untouched on any failure and
holds exactly the returned matrix on success, for both entry points. -/
theorem result_write_policy :
    (∀ (st : CallState) (e : AffineError), (affine_dlt3_call st).1 = .error e →
      (affine_dlt3_call st).2.result = st.result) ∧
    (∀ (st : CallState) (M : AffineMatrix), (affine_dlt3_call st).1 = .ok M →
      (affine_dlt3_call st).2.result = M) ∧
    (∀ (st : CallState) (e : AffineError), (affine_dlt_call st).1 = .error e →
      (affine_dlt_call st).2.result = st.result) ∧
    (∀ (st : CallState) (M : AffineMatrix), (affine_dlt_call st).1 = .ok M →
      (affine_dlt_call st).2.result = M) := by
  refine ⟨?_, ?_, ?_, ?_⟩
  · intro st e h
    unfold affine_dlt3_call at h ⊢
    cases haff : affine_dlt3 st.result st.src st.dest with
    | ok M => rw [haff] at h; simp at h
    | error e2 => rfl
  · intro st M h
    unfold affine_dlt3_call at h ⊢
    cases haff : affine_dlt3 st.result st.src st.dest with
    | ok M2 => rw [haff] at h; simp at h; simpa using h
    | error e2 => rw [haff] at h; simp at h
  · intro st e h
    unfold affine_dlt_call at h ⊢
    cases haff : affine_dlt st.result st.src st.dest with
    | ok M => rw [haff] at h; simp at h
    | error e2 => rfl
  · intro st M h
    unfold affine_dlt_call at h ⊢
    cases haff : affine_dlt st.result st.src st.dest with
    | ok M2 => rw [haff] at h; simp at h; simpa using h
    | error e2 => rw [haff] at h; simp at h

/-- C6 witness: a concrete failing call leaves the concrete result matrix
unchanged. -/
theorem result_write_policy_witness :
    (affine_dlt3_call ⟨zeroMat, [((1 : ℚ), (2 : ℚ))], []⟩).1 =
        .error .InvalidInput ∧
      (affine_dlt3_call ⟨zeroMat, [((1 : ℚ), (2 : ℚ))], []⟩).2.result = zeroMat :=
  ⟨by decide,
   result_write_policy.1 ⟨zeroMat, [((1 : ℚ), (2 : ℚ))], []⟩ .InvalidInput
     (by decide)⟩

/-- C8: neither entry point mutates the source or destination point sets,
whatever the outcome of the call. -/
theorem inputs_not_mutated (st : CallState) :
    (affine_dlt3_call st).2.src = st.src ∧ (affine_dlt3_call st).2.dest = st.dest ∧
      (affine_dlt_call st).2.src = st.src ∧ (affine_dlt_call st).2.dest = st.dest := by
  unfold affine_dlt3_call affine_dlt_call
  cases affine_dlt3 st.result st.src st.dest <;>
    cases affine_dlt st.result st.src st.dest <;>
    exact ⟨rfl, rfl, rfl, rfl⟩

/-- C9: both estimators are deterministic pure functions — equal inputs
give equal outcomes and equal written results. -/
theorem estimator_deterministic (r s d r' s' d' : _)
    (h1 : r = r') (h2 : s = s') (h3 : d = d') :
    affine_dlt3 r s d = affine_dlt3 r' s' d' ∧
      affine_dlt r s d = affine_dlt r' s' d' := by
  subst h1
  subst h2
  subst h3
  exact ⟨rfl, rfl⟩

/-- C9 witness: two calls at the same concrete input agree. -/
theorem estimator_deterministic_witness :
    affine_dlt3 zeroMat [((0 : ℚ), (0 : ℚ)), (1, 0), (0, 1)] [(0, 0), (2, 0), (0, 2)] =
      affine_dlt3 zeroMat [((0 : ℚ), (0 : ℚ)), (1, 0), (0, 1)] [(0, 0), (2, 0), (0, 2)] ∧
    affine_dlt zeroMat [((0 : ℚ), (0 : ℚ)), (1, 0), (0, 1)] [(0, 0), (2, 0), (0, 2)] =
      affine_dlt zeroMat [((0 : ℚ), (0 : ℚ)), (1, 0), (0, 1)] [(0, 0), (2, 0), (0, 2)] :=
  estimator_deterministic zeroMat [((0 : ℚ), (0 : ℚ)), (1, 0), (0, 1)]
    [((0 : ℚ), (0 : ℚ)), (2, 0), (0, 2)] zeroMat
    [((0 : ℚ), (0 : ℚ)), (1, 0), (0, 1)] [((0 : ℚ), (0 : ℚ)), (2, 0), (0, 2)]
    rfl rfl rfl

/-- C10: at the declared C interface both entry points report the outcome
only through the single returned pointer; an `InvalidInput` failure and a
`DegenerateInput` failure produce the same return value (NULL), so the
caller cannot tell them apart from the return value. -/
theorem single_return_channel :
    affine_dlt3 zeroMat [] [((0 : ℚ), (0 : ℚ))] = .error .InvalidInput ∧
      affine_dlt3 zeroMat [((0 : ℚ), (0 : ℚ)), (1, 1), (2, 2)]
        [(0, 0), (1, 0), (0, 1)] = .error .DegenerateInput ∧
      affine_dlt zeroMat [] [((0 : ℚ), (0 : ℚ))] = .error .InvalidInput ∧
      affine_dlt zeroMat [((0 : ℚ), (0 : ℚ)), (1, 1), (2, 2)]
        [(0, 0), (1, 0), (0, 1)] = .error .DegenerateInput ∧
      Mat32_affine_dlt3 zeroMat [] [((0 : ℚ), (0 : ℚ))] = none ∧
      Mat32_affine_dlt3 zeroMat [((0 : ℚ), (0 : ℚ)), (1, 1), (2, 2)]
        [(0, 0), (1, 0), (0, 1)] = none ∧
      Mat32_affine_dlt zeroMat [] [((0 : ℚ), (0 : ℚ))] = none ∧
      Mat32_affine_dlt zeroMat [((0 : ℚ), (0 : ℚ)), (1, 1), (2, 2)]
        [(0, 0), (1, 0), (0, 1)] = none := by
  decide

/-- C7: every matrix returned by either entry point has bottom row exactly
[0, 0, 1]. -/
theorem affine_bottom_row :
    (∀ (r : AffineMatrix) (s d : List Point) (M : AffineMatrix),
      affine_dlt3 r s d = .ok M → M.m20 = 0 ∧ M.m21 = 0 ∧ M.m22 = 1) ∧
    (∀ (r : AffineMatrix) (s d : List Point) (M : AffineMatrix),
      affine_dlt r s d = .ok M → M.m20 = 0 ∧ M.m21 = 0 ∧ M.m22 = 1) := by
  constructor
  · intro r s d M h
    unfold affine_dlt3 at h
    split at h
    · split at h
      · split at h
        · rw [Except.ok.injEq] at h
          subst h
          exact ⟨rfl, rfl, rfl⟩
        · exact absurd h (by simp)
      · exact absurd h (by simp)
    · exact absurd h (by simp)
  · intro r s d M h
    unfold affine_dlt at h
    split at h
    · split at h
      · rw [Except.ok.injEq] at h
        subst h
        exact ⟨rfl, rfl, rfl⟩
      · exact absurd h (by simp)
    · exact absurd h (by simp)

/-- C7 witness: the matrix computed for the spec's own example has bottom
row [0, 0, 1]. -/
theorem affine_bottom_row_witness :
    affine_dlt3 zeroMat [((0 : ℚ), (0 : ℚ)), (1, 0), (0, 1)] [(0, 0), (2, 0), (0, 2)] =
        .ok ⟨2, 0, 0, 0, 2, 0, 0, 0, 1⟩ ∧
      (AffineMatrix.mk 2 0 0 0 2 0 0 0 1).m20 = 0 ∧
      (AffineMatrix.mk 2 0 0 0 2 0 0 0 1).m21 = 0 ∧
      (AffineMatrix.mk 2 0 0 0 2 0 0 0 1).m22 = 1 :=
  ⟨by decide,
   affine_bottom_row.1 zeroMat [((0 : ℚ), (0 : ℚ)), (1, 0), (0, 1)]
     [((0 : ℚ), (0 : ℚ)), (2, 0), (0, 2)] ⟨2, 0, 0, 0, 2, 0, 0, 0, 1⟩ (by decide)⟩

/-- Non-collinear source points give a nonzero 3-point system determinant. -/
theorem det3_ne_of_noncollinear (p1 p2 p3 : Point) (h : ¬ collinear3 p1 p2 p3) :
    det3 p1.1 p1.2 1 p2.1 p2.2 1 p3.1 p3.2 1 ≠ 0 := by
  intro h0
  apply h
  unfold collinear3
  unfold det3 at h0
  linear_combination h0

/-- C1: for any 3 non-collinear source points and any 3 destination points,
`affine_dlt3` succeeds and the returned matrix maps each source point
exactly onto its destination point (exact rational arithmetic, hence
within any tolerance). -/
theorem affine_dlt3_interpolates (r : AffineMatrix) (p1 p2 p3 q1 q2 q3 : Point)
    (h : ¬ collinear3 p1 p2 p3) :
    ∃ M : AffineMatrix,
      affine_dlt3 r [p1, p2, p3] [q1, q2, q3] = .ok M ∧
        applyAffine M p1 = q1 ∧ applyAffine M p2 = q2 ∧ applyAffine M p3 = q3 := by
  have hΔ := det3_ne_of_noncollinear p1 p2 p3 h
  have hU := solve3_of_det p1.1 p1.2 1 p2.1 p2.2 1 p3.1 p3.2 1 q1.1 q2.1 q3.1 hΔ
  have hV := solve3_of_det p1.1 p1.2 1 p2.1 p2.2 1 p3.1 p3.2 1 q1.2 q2.2 q3.2 hΔ
  have eU := solve3_spec _ _ _ _ _ _ _ _ _ _ _ _ _ _ _ hU
  have eV := solve3_spec _ _ _ _ _ _ _ _ _ _ _ _ _ _ _ hV
  rw [affine_dlt3_three]
  unfold dlt3Core
  rw [hU, hV]
  refine ⟨_, rfl, ?_, ?_, ?_⟩
  · refine Prod.ext ?_ ?_
    · simp only [applyAffine]
      linear_combination eU.1
    · simp only [applyAffine]
      linear_combination eV.1
  · refine Prod.ext ?_ ?_
    · simp only [applyAffine]
      linear_combination eU.2.1
    · simp only [applyAffine]
      linear_combination eV.2.1
  · refine Prod.ext ?_ ?_
    · simp only [applyAffine]
      linear_combination eU.2.2
    · simp only [applyAffine]
      linear_combination eV.2.2

/-- C1 witness: the spec's example — sources (0,0), (1,0), (0,1) and
destinations (0,0), (2,0), (0,2) — succeeds and interpolates. -/
theorem affine_dlt3_interpolates_witness :
    ¬ collinear3 ((0 : ℚ), (0 : ℚ)) (1, 0) (0, 1) ∧
      ∃ M : AffineMatrix,
        affine_dlt3 zeroMat [((0 : ℚ), (0 : ℚ)), (1, 0), (0, 1)]
            [((0 : ℚ), (0 : ℚ)), (2, 0), (0, 2)] = .ok M ∧
          applyAffine M ((0 : ℚ), (0 : ℚ)) = ((0 : ℚ), (0 : ℚ)) ∧
          applyAffine M (1, 0) = (2, 0) ∧ applyAffine M (0, 1) = (0, 2) :=
  ⟨by decide,
   affine_dlt3_interpolates zeroMat (0, 0) (1, 0) (0, 1) (0, 0) (2, 0) (0, 2)
     (by decide)⟩

/-- On three pairs the Gram-block determinant of the normal system is the
square of the 3-point system determinant. -/
theorem normalDet_three (p1 p2 p3 q1 q2 q3 : Point) :
    normalDet [(p1, q1), (p2, q2), (p3, q3)] =
      det3 p1.1 p1.2 1 p2.1 p2.2 1 p3.1 p3.2 1 ^ 2 := by
  unfold normalDet sxx sxy sx syy sy sn px py
  simp only [List.map_cons, List.map_nil, List.sum_cons, List.sum_nil]
  unfold det3
  ring

/-- C3: on 3 non-collinear point pairs the N-point least-squares path and
the exact 3-point path both succeed and return the same matrix (exact
agreement in rational arithmetic, hence within any tolerance). -/
theorem affine_dlt_agrees_dlt3 (r : AffineMatrix) (p1 p2 p3 q1 q2 q3 : Point)
    (h : ¬ collinear3 p1 p2 p3) :
    ∃ M : AffineMatrix,
      affine_dlt3 r [p1, p2, p3] [q1, q2, q3] = .ok M ∧
        affine_dlt r [p1, p2, p3] [q1, q2, q3] = .ok M := by
  have hΔ := det3_ne_of_noncollinear p1 p2 p3 h
  obtain ⟨⟨a, b, tx⟩, hU⟩ :
      ∃ t, solve3 p1.1 p1.2 1 p2.1 p2.2 1 p3.1 p3.2 1 q1.1 q2.1 q3.1 = some t :=
    ⟨_, solve3_of_det _ _ _ _ _ _ _ _ _ _ _ _ hΔ⟩
  obtain ⟨⟨c, d, ty⟩, hV⟩ :
      ∃ t, solve3 p1.1 p1.2 1 p2.1 p2.2 1 p3.1 p3.2 1 q1.2 q2.2 q3.2 = some t :=
    ⟨_, solve3_of_det _ _ _ _ _ _ _ _ _ _ _ _ hΔ⟩
  have eU := solve3_spec _ _ _ _ _ _ _ _ _ _ _ _ _ _ _ hU
  have eV := solve3_spec _ _ _ _ _ _ _ _ _ _ _ _ _ _ _ hV
  have hΔ2 : det3 (sxx [(p1, q1), (p2, q2), (p3, q3)]) (sxy [(p1, q1), (p2, q2), (p3, q3)])
      (sx [(p1, q1), (p2, q2), (p3, q3)]) (sxy [(p1, q1), (p2, q2), (p3, q3)])
      (syy [(p1, q1), (p2, q2), (p3, q3)]) (sy [(p1, q1), (p2, q2), (p3, q3)])
      (sx [(p1, q1), (p2, q2), (p3, q3)]) (sy [(p1, q1), (p2, q2), (p3, q3)])
      (sn [(p1, q1), (p2, q2), (p3, q3)]) ≠ 0 := by
    have := normalDet_three p1 p2 p3 q1 q2 q3
    unfold normalDet at this
    rw [this]
    exact pow_ne_zero 2 hΔ
  obtain ⟨⟨a2, b2, tx2⟩, hU2⟩ :
      ∃ t, solve3 (sxx [(p1, q1), (p2, q2), (p3, q3)]) (sxy [(p1, q1), (p2, q2), (p3, q3)])
        (sx [(p1, q1), (p2, q2), (p3, q3)]) (sxy [(p1, q1), (p2, q2), (p3, q3)])
        (syy [(p1, q1), (p2, q2), (p3, q3)]) (sy [(p1, q1), (p2, q2), (p3, q3)])
        (sx [(p1, q1), (p2, q2), (p3, q3)]) (sy [(p1, q1), (p2, q2), (p3, q3)])
        (sn [(p1, q1), (p2, q2), (p3, q3)]) (bxu [(p1, q1), (p2, q2), (p3, q3)])
        (byu [(p1, q1), (p2, q2), (p3, q3)]) (bu [(p1, q1), (p2, q2), (p3, q3)]) = some t :=
    ⟨_, solve3_of_det _ _ _ _ _ _ _ _ _ _ _ _ hΔ2⟩
  obtain ⟨⟨c2, d2, ty2⟩, hV2⟩ :
      ∃ t, solve3 (sxx [(p1, q1), (p2, q2), (p3, q3)]) (sxy [(p1, q1), (p2, q2), (p3, q3)])
        (sx [(p1, q1), (p2, q2), (p3, q3)]) (sxy [(p1, q1), (p2, q2), (p3, q3)])
        (syy [(p1, q1), (p2, q2), (p3, q3)]) (sy [(p1, q1), (p2, q2), (p3, q3)])
        (sx [(p1, q1), (p2, q2), (p3, q3)]) (sy [(p1, q1), (p2, q2), (p3, q3)])
        (sn [(p1, q1), (p2, q2), (p3, q3)]) (bxv [(p1, q1), (p2, q2), (p3, q3)])
        (byv [(p1, q1), (p2, q2), (p3, q3)]) (bv [(p1, q1), (p2, q2), (p3, q3)]) = some t :=
    ⟨_, solve3_of_det _ _ _ _ _ _ _ _ _ _ _ _ hΔ2⟩
  have eU2 := solve3_spec _ _ _ _ _ _ _ _ _ _ _ _ _ _ _ hU2
  have eV2 := solve3_spec _ _ _ _ _ _ _ _ _ _ _ _ _ _ _ hV2
  have gU1 : sxx [(p1, q1), (p2, q2), (p3, q3)] * a + sxy [(p1, q1), (p2, q2), (p3, q3)] * b
      + sx [(p1, q1), (p2, q2), (p3, q3)] * tx = bxu [(p1, q1), (p2, q2), (p3, q3)] := by
    unfold sxx sxy sx bxu px py pu
    simp only [List.map_cons, List.map_nil, List.sum_cons, List.sum_nil]
    linear_combination p1.1 * eU.1 + p2.1 * eU.2.1 + p3.1 * eU.2.2
  have gU2 : sxy [(p1, q1), (p2, q2), (p3, q3)] * a + syy [(p1, q1), (p2, q2), (p3, q3)] * b
      + sy [(p1, q1), (p2, q2), (p3, q3)] * tx = byu [(p1, q1), (p2, q2), (p3, q3)] := by
    unfold sxy syy sy byu px py pu
    simp only [List.map_cons, List.map_nil, List.sum_cons, List.sum_nil]
    linear_combination p1.2 * eU.1 + p2.2 * eU.2.1 + p3.2 * eU.2.2
  have gU3 : sx [(p1, q1), (p2, q2), (p3, q3)] * a + sy [(p1, q1), (p2, q2), (p3, q3)] * b
      + sn [(p1, q1), (p2, q2), (p3, q3)] * tx = bu [(p1, q1), (p2, q2), (p3, q3)] := by
    unfold sx sy sn bu px py pu
    simp only [List.map_cons, List.map_nil, List.sum_cons, List.sum_nil]
    linear_combination eU.1 + eU.2.1 + eU.2.2
  have gV1 : sxx [(p1, q1), (p2, q2), (p3, q3)] * c + sxy [(p1, q1), (p2, q2), (p3, q3)] * d
      + sx [(p1, q1), (p2, q2), (p3, q3)] * ty = bxv [(p1, q1), (p2, q2), (p3, q3)] := by
    unfold sxx sxy sx bxv px py pv
    simp only [List.map_cons, List.map_nil, List.sum_cons, List.sum_nil]
    linear_combination p1.1 * eV.1 + p2.1 * eV.2.1 + p3.1 * eV.2.2
  have gV2 : sxy [(p1, q1), (p2, q2), (p3, q3)] * c + syy [(p1, q1), (p2, q2), (p3, q3)] * d
      + sy [(p1, q1), (p2, q2), (p3, q3)] * ty = byv [(p1, q1), (p2, q2), (p3, q3)] := by
    unfold sxy syy sy byv px py pv
    simp only [List.map_cons, List.map_nil, List.sum_cons, List.sum_nil]
    linear_combination p1.2 * eV.1 + p2.2 * eV.2.1 + p3.2 * eV.2.2
  have gV3 : sx [(p1, q1), (p2, q2), (p3, q3)] * c + sy [(p1, q1), (p2, q2), (p3, q3)] * d
      + sn [(p1, q1), (p2, q2), (p3, q3)] * ty = bv [(p1, q1), (p2, q2), (p3, q3)] := by
    unfold sx sy sn bv px py pv
    simp only [List.map_cons, List.map_nil, List.sum_cons, List.sum_nil]
    linear_combination eV.1 + eV.2.1 + eV.2.2
  obtain ⟨ha, hb, htx⟩ := lin3_unique _ _ _ _ _ _ _ _ _ _ _ _ hΔ2 a2 b2 tx2 a b tx
    eU2.1 eU2.2.1 eU2.2.2 gU1 gU2 gU3
  obtain ⟨hc, hd, hty⟩ := lin3_unique _ _ _ _ _ _ _ _ _ _ _ _ hΔ2 c2 d2 ty2 c d ty
    eV2.1 eV2.2.1 eV2.2.2 gV1 gV2 gV3
  refine ⟨⟨a, b, tx, c, d, ty, 0, 0, 1⟩, ?_, ?_⟩
  · rw [affine_dlt3_three]
    unfold dlt3Core
    rw [hU, hV]
  · rw [affine_dlt_valid r [p1, p2, p3] [q1, q2, q3] ⟨rfl, le_refl 3⟩]
    have hzip : List.zip [p1, p2, p3] [q1, q2, q3] = [(p1, q1), (p2, q2), (p3, q3)] := rfl
    unfold dltCore
    rw [hzip, hU2, hV2, ha, hb, htx, hc, hd, hty]

/-- C3 witness: on the spec's example the two entry points return the same
matrix. -/
theorem affine_dlt_agrees_dlt3_witness :
    ¬ collinear3 ((0 : ℚ), (0 : ℚ)) (1, 0) (0, 1) ∧
      ∃ M : AffineMatrix,
        affine_dlt3 zeroMat [((0 : ℚ), (0 : ℚ)), (1, 0), (0, 1)]
            [((0 : ℚ), (0 : ℚ)), (2, 0), (0, 2)] = .ok M ∧
          affine_dlt zeroMat [((0 : ℚ), (0 : ℚ)), (1, 0), (0, 1)]
            [((0 : ℚ), (0 : ℚ)), (2, 0), (0, 2)] = .ok M :=
  ⟨by decide,
   affine_dlt_agrees_dlt3 zeroMat (0, 0) (1, 0) (0, 1) (0, 0) (2, 0) (0, 2)
     (by decide)⟩

/-- Linearity of the weighted residual sum in the three parameters. -/
theorem sum_resid_lin (l : List (Point × Point)) (W U : Point × Point → ℚ)
    (a b c : ℚ) :
    (l.map fun q => W q * (U q - (a * px q + b * py q + c))).sum
      = (l.map fun q => W q * U q).sum - a * (l.map fun q => W q * px q).sum
        - b * (l.map fun q => W q * py q).sum - c * (l.map fun q => W q).sum := by
  induction l with
  | nil => simp
  | cons p t ih =>
    simp only [List.map_cons, List.sum_cons]
    rw [ih]
    ring

/-- Linearity of the unweighted residual sum in the three parameters. -/
theorem sum_resid_lin1 (l : List (Point × Point)) (U : Point × Point → ℚ)
    (a b c : ℚ) :
    (l.map fun q => (U q - (a * px q + b * py q + c))).sum
      = (l.map fun q => U q).sum - a * (l.map fun q => px q).sum
        - b * (l.map fun q => py q).sum - c * (l.map fun _ => (1 : ℚ)).sum := by
  induction l with
  | nil => simp
  | cons p t ih =>
    simp only [List.map_cons, List.sum_cons]
    rw [ih]
    ring

/-- The mixed Gram sum is symmetric in the two source coordinates. -/
theorem sum_comm_xy (l : List (Point × Point)) :
    (l.map fun q => py q * px q).sum = (l.map fun q => px q * py q).sum := by
  induction l with
  | nil => simp
  | cons p t ih =>
    simp only [List.map_cons, List.sum_cons]
    rw [ih]
    ring

/-- Orthogonal decomposition of the residual sum of squares of any
parameter choice around a fixed parameter choice. -/
theorem rss_decomp (l : List (Point × Point))
    (a b tx c d ty a' b' tx' c' d' ty' : ℚ) :
    (l.map fun q => (pu q - (a' * px q + b' * py q + tx')) ^ 2
        + (pv q - (c' * px q + d' * py q + ty')) ^ 2).sum
      = (l.map fun q => (pu q - (a * px q + b * py q + tx)) ^ 2
          + (pv q - (c * px q + d * py q + ty)) ^ 2).sum
        + 2 * (a - a') * (l.map fun q => px q * (pu q - (a * px q + b * py q + tx))).sum
        + 2 * (b - b') * (l.map fun q => py q * (pu q - (a * px q + b * py q + tx))).sum
        + 2 * (tx - tx') * (l.map fun q => (pu q - (a * px q + b * py q + tx))).sum
        + 2 * (c - c') * (l.map fun q => px q * (pv q - (c * px q + d * py q + ty))).sum
        + 2 * (d - d') * (l.map fun q => py q * (pv q - (c * px q + d * py q + ty))).sum
        + 2 * (ty - ty') * (l.map fun q => (pv q - (c * px q + d * py q + ty))).sum
        + (l.map fun q => ((a - a') * px q + (b - b') * py q + (tx - tx')) ^ 2
            + ((c - c') * px q + (d - d') * py q + (ty - ty')) ^ 2).sum := by
  induction l with
  | nil => simp
  | cons p t ih =>
    simp only [List.map_cons, List.sum_cons]
    rw [ih]
    ring

/-- Parameters whose residuals are orthogonal to the design columns
minimize the residual sum of squares. -/
theorem rss_min (l : List (Point × Point)) (a b tx c d ty a' b' tx' c' d' ty' : ℚ)
    (o1 : (l.map fun q => px q * (pu q - (a * px q + b * py q + tx))).sum = 0)
    (o2 : (l.map fun q => py q * (pu q - (a * px q + b * py q + tx))).sum = 0)
    (o3 : (l.map fun q => (pu q - (a * px q + b * py q + tx))).sum = 0)
    (o4 : (l.map fun q => px q * (pv q - (c * px q + d * py q + ty))).sum = 0)
    (o5 : (l.map fun q => py q * (pv q - (c * px q + d * py q + ty))).sum = 0)
    (o6 : (l.map fun q => (pv q - (c * px q + d * py q + ty))).sum = 0) :
    (l.map fun q => (pu q - (a * px q + b * py q + tx)) ^ 2
        + (pv q - (c * px q + d * py q + ty)) ^ 2).sum
      ≤ (l.map fun q => (pu q - (a' * px q + b' * py q + tx')) ^ 2
          + (pv q - (c' * px q + d' * py q + ty')) ^ 2).sum := by
  rw [rss_decomp l a b tx c d ty a' b' tx' c' d' ty', o1, o2, o3, o4, o5, o6]
  have hnn : 0 ≤ (l.map fun q =>
      ((a - a') * px q + (b - b') * py q + (tx - tx')) ^ 2
        + ((c - c') * px q + (d - d') * py q + (ty - ty')) ^ 2).sum :=
    List.sum_nonneg (fun x hx => by
      obtain ⟨q, hq, rfl⟩ := List.mem_map.mp hx
      positivity)
  linarith

/-- C2: whenever `affine_dlt` succeeds, the matrix it writes minimizes the
sum of squared residuals over all affine matrices. -/
theorem affine_dlt_least_squares (r : AffineMatrix) (src dest : List Point)
    (M : AffineMatrix) (h : affine_dlt r src dest = .ok M) (B : AffineMatrix) :
    rss src dest M ≤ rss src dest B := by
  unfold affine_dlt at h
  split at h
  · cases hc : dltCore (src.zip dest) with
    | none => rw [hc] at h; simp at h
    | some t =>
      obtain ⟨⟨a, b, tx⟩, ⟨c, d, ty⟩⟩ := t
      rw [hc] at h
      simp only [Except.ok.injEq] at h
      subst h
      unfold dltCore at hc
      split at hc
      · rename_i abt cdt hsU hsV
        rw [Option.some_inj, Prod.mk.injEq] at hc
        obtain ⟨rfl, rfl⟩ := hc
        have eU := solve3_spec _ _ _ _ _ _ _ _ _ _ _ _ _ _ _ hsU
        have eV := solve3_spec _ _ _ _ _ _ _ _ _ _ _ _ _ _ _ hsV
        unfold sxx sxy sx syy sy sn bxu byu bu at eU
        unfold sxx sxy sx syy sy sn bxv byv bv at eV
        have o1 : ((src.zip dest).map fun q =>
            px q * (pu q - (a * px q + b * py q + tx))).sum = 0 := by
          rw [sum_resid_lin (src.zip dest) px pu a b tx]
          linear_combination -eU.1
        have o2 : ((src.zip dest).map fun q =>
            py q * (pu q - (a * px q + b * py q + tx))).sum = 0 := by
          rw [sum_resid_lin (src.zip dest) py pu a b tx, sum_comm_xy]
          linear_combination -eU.2.1
        have o3 : ((src.zip dest).map fun q =>
            (pu q - (a * px q + b * py q + tx))).sum = 0 := by
          rw [sum_resid_lin1 (src.zip dest) pu a b tx]
          linear_combination -eU.2.2
        have o4 : ((src.zip dest).map fun q =>
            px q * (pv q - (c * px q + d * py q + ty))).sum = 0 := by
          rw [sum_resid_lin (src.zip dest) px pv c d ty]
          linear_combination -eV.1
        have o5 : ((src.zip dest).map fun q =>
            py q * (pv q - (c * px q + d * py q + ty))).sum = 0 := by
          rw [sum_resid_lin (src.zip dest) py pv c d ty, sum_comm_xy]
          linear_combination -eV.2.1
        have o6 : ((src.zip dest).map fun q =>
            (pv q - (c * px q + d * py q + ty))).sum = 0 := by
          rw [sum_resid_lin1 (src.zip dest) pv c d ty]
          linear_combination -eV.2.2
        unfold rss
        simp only
        exact rss_min (src.zip dest) a b tx c d ty
          B.m00 B.m01 B.m02 B.m10 B.m11 B.m12 o1 o2 o3 o4 o5 o6
      · exact absurd hc (by simp)
  · simp at h

/-- C2 witness: a 4-point identity fit — `affine_dlt` returns the identity
matrix, whose residual sum of squares is no larger than that of a scaled
alternative. -/
theorem affine_dlt_least_squares_witness :
    affine_dlt zeroMat [((0 : ℚ), (0 : ℚ)), (1, 0), (0, 1), (1, 1)]
        [((0 : ℚ), (0 : ℚ)), (1, 0), (0, 1), (1, 1)] =
        .ok ⟨1, 0, 0, 0, 1, 0, 0, 0, 1⟩ ∧
      rss [((0 : ℚ), (0 : ℚ)), (1, 0), (0, 1), (1, 1)]
          [((0 : ℚ), (0 : ℚ)), (1, 0), (0, 1), (1, 1)] ⟨1, 0, 0, 0, 1, 0, 0, 0, 1⟩ ≤
        rss [((0 : ℚ), (0 : ℚ)), (1, 0), (0, 1), (1, 1)]
          [((0 : ℚ), (0 : ℚ)), (1, 0), (0, 1), (1, 1)] ⟨2, 0, 0, 0, 2, 0, 0, 0, 1⟩ :=
  ⟨by decide,
   affine_dlt_least_squares zeroMat
     [((0 : ℚ), (0 : ℚ)), (1, 0), (0, 1), (1, 1)]
     [((0 : ℚ), (0 : ℚ)), (1, 0), (0, 1), (1, 1)] ⟨1, 0, 0, 0, 1, 0, 0, 0, 1⟩
     (by decide) ⟨2, 0, 0, 0, 2, 0, 0, 0, 1⟩⟩

end Affine32
